import Mathlib

/-!
Shallow embedding of `hanzo/warctools/stream.py` and `hanzo/warcpayload.py`.

Bytes are modelled as natural numbers; a Python file object open for reading
is its full byte content plus a cursor. Python integers are `Int` where the
source can in principle go negative (`bytes_to_eor`), `Nat` for sizes and
positions. External collaborators (the raw file object, the gzip layer, the
record parser, the HTTP decoder) are modelled from their documented
contracts, at the granularity the stream code observes.
-/

namespace Warctools

/-- A byte, as a natural number. -/
abbrev Byte := Nat

/-- Model of a Python file object open for binary reading: the full byte
content of the file, the cursor position (`tell`), and a closed flag. -/
structure PyFile where
  data : List Byte
  pos : Nat
  closed : Bool
deriving DecidableEq

/-- Python `file.read(count)` / `file.read()`: return up to `count` bytes from
the cursor (all remaining bytes when `count` is `none`) and advance the
cursor by the number of bytes returned. -/
def PyFile.readAt (f : PyFile) (count : Option Nat) : List Byte × PyFile :=
  let avail := f.data.drop f.pos
  let result := match count with
    | some c => avail.take c
    | none => avail
  (result, { f with pos := f.pos + result.length })

/-- The longest prefix of a byte list up to and including the first newline
byte (0x0A); the whole list when it holds no newline. -/
def takeLine : List Byte → List Byte
  | [] => []
  | b :: bs => if b = 10 then [b] else b :: takeLine bs

/-- Python `file.readline(lim)` / `file.readline()`: read bytes until a
newline is consumed, the limit is reached, or the file is exhausted. -/
def PyFile.readlineAt (f : PyFile) (lim : Option Nat) : List Byte × PyFile :=
  let avail := f.data.drop f.pos
  let chunk := match lim with
    | some l => avail.take l
    | none => avail
  let result := takeLine chunk
  (result, { f with pos := f.pos + result.length })

/-- Python `file.close()`: mark the handle closed (idempotent). -/
def PyFile.close (f : PyFile) : PyFile :=
  { f with closed := true }

/-- `RecordStream` state: the file handle `fh` and `bytes_to_eor`, the
nullable count of bytes until the end of the current record. -/
structure RecordStream where
  fh : PyFile
  bytes_to_eor : Option Int
deriving DecidableEq

/-- `CHUNK_SIZE` from `stream.py`. -/
def CHUNK_SIZE : Nat := 8192

/-- `RecordStream._read`: raw read of `count` bytes (all remaining bytes when
`count` is `none`); when `bytes_to_eor` is set it is decremented by the
number of bytes actually returned. -/
def RecordStream.rawRead (s : RecordStream) (count : Option Nat) :
    List Byte × RecordStream :=
  let (result, fh') := s.fh.readAt count
  let bte' := s.bytes_to_eor.map (fun n => n - (result.length : Int))
  (result, { fh := fh', bytes_to_eor := bte' })

/-- `RecordStream.read`: safe content read. When `bytes_to_eor` is set the
requested size is clamped to `min count (max (bytes_to_eor - 4) 0)` (the
trailing delimiter is preserved); otherwise the request passes through. -/
def RecordStream.read (s : RecordStream) (count : Option Nat) :
    List Byte × RecordStream :=
  let read_size : Option Nat :=
    match s.bytes_to_eor, count with
    | some bte, some c => some (min c (max (bte - 4) 0).toNat)
    | some bte, none => some (max (bte - 4) 0).toNat
    | none, some c => some c
    | none, none => none
  s.rawRead read_size

/-- `RecordStream.readline`: safe content readline, with the same clamping of
the limit as `read`; `bytes_to_eor` is decremented by the number of bytes
returned. -/
def RecordStream.readline (s : RecordStream) (maxlen : Option Nat) :
    List Byte × RecordStream :=
  let lim : Option Nat :=
    match s.bytes_to_eor, maxlen with
    | some bte, some m => some (min m (max (bte - 4) 0).toNat)
    | some bte, none => some (max (bte - 4) 0).toNat
    | none, some m => some m
    | none, none => none
  let (result, fh') := s.fh.readlineAt lim
  let bte' := s.bytes_to_eor.map (fun n => n - (result.length : Int))
  (result, { fh := fh', bytes_to_eor := bte' })

theorem RecordStream.rawRead_fst_length_le (s : RecordStream) (c : Nat) :
    ((s.rawRead (some c)).1).length ≤ c := by
  simp [RecordStream.rawRead, PyFile.readAt]

theorem RecordStream.rawRead_snd_bte (s : RecordStream) (c : Option Nat) :
    ((s.rawRead c).2).bytes_to_eor =
      s.bytes_to_eor.map (fun n => n - (((s.rawRead c).1).length : Int)) := by
  simp [RecordStream.rawRead, PyFile.readAt]

/-- Loop body of `RecordStream._skip_to_eor`, with a fuel argument bounding
the number of iterations (each successful iteration strictly decreases
`bytes_to_eor`, so `bytes_to_eor + 1` units of fuel always suffice; see
`skipToEorAux_spec`). Drains the unconsumed remainder of the previous record
in chunks of `min CHUNK_SIZE bytes_to_eor` until `bytes_to_eor` reaches zero;
a read returning fewer bytes than requested raises immediately, and an unset
`bytes_to_eor` raises. -/
def RecordStream.skipToEorAux : Nat → RecordStream → Except String RecordStream
  | 0, _ => .error "fuel exhausted"
  | fuel + 1, s =>
    match s.bytes_to_eor with
    | none => .error "bytes_to_eor is unset, cannot skip to end"
    | some bte =>
      if 0 < bte then
        let read_size := min CHUNK_SIZE bte.toNat
        let buf := (s.rawRead (some read_size)).1
        if buf.length < read_size then
          .error "expected more bytes than were read"
        else
          RecordStream.skipToEorAux fuel ((s.rawRead (some read_size)).2)
      else
        .ok s

/-- `RecordStream._skip_to_eor`: the drain loop with sufficient fuel. -/
def RecordStream.skipToEor (s : RecordStream) : Except String RecordStream :=
  RecordStream.skipToEorAux ((s.bytes_to_eor.getD 0).toNat + 1) s

theorem takeLine_length_le (l : List Byte) : (takeLine l).length ≤ l.length := by
  induction l with
  | nil => simp [takeLine]
  | cons b bs ih =>
    simp only [takeLine]
    split
    · simp
    · simpa using Nat.succ_le_succ ih

theorem skipToEorAux_spec :
    ∀ (fuel : Nat) (s : RecordStream) (r : Int),
      s.bytes_to_eor = some r → 0 ≤ r → r.toNat < fuel →
      (r.toNat ≤ s.fh.data.length - s.fh.pos →
        RecordStream.skipToEorAux fuel s =
          .ok ⟨⟨s.fh.data, s.fh.pos + r.toNat, s.fh.closed⟩, some 0⟩) ∧
      (s.fh.data.length - s.fh.pos < r.toNat →
        RecordStream.skipToEorAux fuel s =
          .error "expected more bytes than were read") := by
  intro fuel
  induction fuel with
  | zero => intro s r _ _ hf; omega
  | succ fuel ih =>
    intro s r hbte hr hf
    by_cases hpos : 0 < r
    · -- at least one drain iteration
      have hrw : RecordStream.skipToEorAux (fuel + 1) s =
          (if ((s.rawRead (some (min CHUNK_SIZE r.toNat))).1).length <
                min CHUNK_SIZE r.toNat then
             .error "expected more bytes than were read"
           else RecordStream.skipToEorAux fuel
                  ((s.rawRead (some (min CHUNK_SIZE r.toNat))).2)) := by
        simp only [RecordStream.skipToEorAux, hbte]
        rw [if_pos hpos]
      set rs := min CHUNK_SIZE r.toNat with hrs
      have hrs1 : 1 ≤ rs := by
        have : 1 ≤ r.toNat := by omega
        simp only [hrs, CHUNK_SIZE]; omega
      have hrsr : rs ≤ r.toNat := by simp only [hrs]; omega
      have hbuf : ((s.rawRead (some rs)).1).length =
          min rs (s.fh.data.length - s.fh.pos) := by
        simp [RecordStream.rawRead, PyFile.readAt, Nat.min_comm]
      have hdata : ((s.rawRead (some rs)).2).fh.data = s.fh.data := by
        simp [RecordStream.rawRead, PyFile.readAt]
      have hpos2 : ((s.rawRead (some rs)).2).fh.pos =
          s.fh.pos + ((s.rawRead (some rs)).1).length := by
        simp [RecordStream.rawRead, PyFile.readAt]
      have hclosed : ((s.rawRead (some rs)).2).fh.closed = s.fh.closed := by
        simp [RecordStream.rawRead, PyFile.readAt]
      have hbte2 : ((s.rawRead (some rs)).2).bytes_to_eor =
          some (r - (((s.rawRead (some rs)).1).length : Int)) := by
        rw [RecordStream.rawRead_snd_bte, hbte]; rfl
      constructor
      · -- enough bytes available: the drain succeeds and consumes exactly r
        intro hav
        have hlen : ((s.rawRead (some rs)).1).length = rs := by
          rw [hbuf]; omega
        rw [hrw, if_neg (by omega)]
        have hih := ih ((s.rawRead (some rs)).2) (r - (rs : Int))
          (by rw [hbte2, hlen]) (by omega) (by omega)
        have h2 := hih.1 (by rw [hdata, hpos2, hlen]; omega)
        rw [h2, hdata, hpos2, hclosed, hlen]
        have harith : s.fh.pos + rs + ((r - (rs : Int)).toNat) =
            s.fh.pos + r.toNat := by omega
        rw [harith]
      · -- fewer bytes than the remaining-count: the drain errors
        intro hav
        by_cases hshort : ((s.rawRead (some rs)).1).length < rs
        · rw [hrw, if_pos hshort]
        · have hlen : ((s.rawRead (some rs)).1).length = rs := by
            rw [hbuf] at hshort ⊢; omega
          rw [hrw, if_neg hshort]
          have hih := ih ((s.rawRead (some rs)).2) (r - (rs : Int))
            (by rw [hbte2, hlen]) (by omega) (by omega)
          exact hih.2 (by rw [hdata, hpos2, hlen]; omega)
    · -- remaining-count not positive: no iteration, state unchanged
      have hstep : RecordStream.skipToEorAux (fuel + 1) s = .ok s := by
        simp only [RecordStream.skipToEorAux, hbte]
        rw [if_neg hpos]
      constructor
      · intro _
        have hr0 : r = 0 := by omega
        subst hr0
        rw [hstep]
        obtain ⟨⟨d, p, c⟩, b⟩ := s
        simp only at hbte ⊢
        rw [hbte]
        simp
      · intro hav
        omega

theorem skipToEor_spec (s : RecordStream) (r : Int)
    (hbte : s.bytes_to_eor = some r) (hr : 0 ≤ r) :
    (r.toNat ≤ s.fh.data.length - s.fh.pos →
      s.skipToEor = .ok ⟨⟨s.fh.data, s.fh.pos + r.toNat, s.fh.closed⟩, some 0⟩) ∧
    (s.fh.data.length - s.fh.pos < r.toNat →
      s.skipToEor = .error "expected more bytes than were read") := by
  have h := skipToEorAux_spec (r.toNat + 1) s r hbte hr (by omega)
  unfold RecordStream.skipToEor
  rw [hbte]
  simpa using h

theorem PyFile.readlineAt_fst_length_le (f : PyFile) (k : Nat) :
    ((f.readlineAt (some k)).1).length ≤ k := by
  refine le_trans (takeLine_length_le _) ?_
  simp [PyFile.readlineAt]

/-- For a stream with an active remaining-count, `read` returns at most
`max (bytes_to_eor - 4) 0` bytes and decrements the remaining-count by
exactly the number of bytes returned. -/
theorem RecordStream.read_spec_some (s : RecordStream) (r : Int)
    (c : Option Nat) (h : s.bytes_to_eor = some r) :
    ((s.read c).1).length ≤ (max (r - 4) 0).toNat ∧
    ((s.read c).2).bytes_to_eor =
      some (r - (((s.read c).1).length : Int)) := by
  have hbody : s.read c =
      s.rawRead (some (match c with
        | some c0 => min c0 (max (r - 4) 0).toNat
        | none => (max (r - 4) 0).toNat)) := by
    cases c <;> simp [RecordStream.read, h]
  constructor
  · rw [hbody]
    refine le_trans (RecordStream.rawRead_fst_length_le s _) ?_
    cases c <;> simp
  · rw [hbody, RecordStream.rawRead_snd_bte, h]
    rw [← hbody]
    rfl

/-- For a stream with an active remaining-count, `readline` returns at most
`max (bytes_to_eor - 4) 0` bytes and decrements the remaining-count by
exactly the number of bytes returned. -/
theorem RecordStream.readline_spec_some (s : RecordStream) (r : Int)
    (m : Option Nat) (h : s.bytes_to_eor = some r) :
    ((s.readline m).1).length ≤ (max (r - 4) 0).toNat ∧
    ((s.readline m).2).bytes_to_eor =
      some (r - (((s.readline m).1).length : Int)) := by
  have hlim : (s.readline m).1 =
      (s.fh.readlineAt (some (match m with
        | some m0 => min m0 (max (r - 4) 0).toNat
        | none => (max (r - 4) 0).toNat))).1 := by
    cases m <;> simp [RecordStream.readline, h]
  constructor
  · rw [hlim]
    refine le_trans (PyFile.readlineAt_fst_length_le _ _) ?_
    cases m <;> simp
  · cases m <;> simp [RecordStream.readline, h]

/-- One public operation on a `RecordStream`: a safe `read`, a safe
`readline`, or the drain performed at the start of a record read
(`_skip_to_eor`). -/
inductive StreamOp where
  | readOp : Option Nat → StreamOp
  | readlineOp : Option Nat → StreamOp
  | drainOp : StreamOp
deriving DecidableEq

/-- Run one operation on the stream; the drain can raise. -/
def RecordStream.runOp (s : RecordStream) : StreamOp → Except String RecordStream
  | .readOp c => .ok (s.read c).2
  | .readlineOp m => .ok (s.readline m).2
  | .drainOp => s.skipToEor

/-- Run a sequence of operations, stopping at the first raise. -/
def RecordStream.runOps (s : RecordStream) :
    List StreamOp → Except String RecordStream
  | [] => .ok s
  | op :: ops =>
    match s.runOp op with
    | .ok s' => s'.runOps ops
    | .error e => .error e

/-- A single successful operation keeps the remaining-count set, no smaller
than zero, and no larger than before. -/
theorem RecordStream.runOp_bte_mono (s s' : RecordStream) (op : StreamOp)
    (r : Int) (hbte : s.bytes_to_eor = some r) (hr : 0 ≤ r)
    (h : s.runOp op = .ok s') :
    ∃ r', s'.bytes_to_eor = some r' ∧ 0 ≤ r' ∧ r' ≤ r := by
  cases op with
  | readOp c =>
    have hs' : s' = (s.read c).2 := by
      simpa [RecordStream.runOp] using h.symm
    have hspec := RecordStream.read_spec_some s r c hbte
    refine ⟨r - (((s.read c).1).length : Int), ?_, ?_, ?_⟩
    · rw [hs']; exact hspec.2
    · have := hspec.1; omega
    · omega
  | readlineOp m =>
    have hs' : s' = (s.readline m).2 := by
      simpa [RecordStream.runOp] using h.symm
    have hspec := RecordStream.readline_spec_some s r m hbte
    refine ⟨r - (((s.readline m).1).length : Int), ?_, ?_, ?_⟩
    · rw [hs']; exact hspec.2
    · have := hspec.1; omega
    · omega
  | drainOp =>
    have hdr : s.skipToEor = .ok s' := h
    have hspec := skipToEor_spec s r hbte hr
    by_cases hav : r.toNat ≤ s.fh.data.length - s.fh.pos
    · have h1 := hspec.1 hav
      rw [h1] at hdr
      injection hdr with h2
      refine ⟨0, ?_, le_refl 0, hr⟩
      rw [← h2]
    · have h2 := hspec.2 (by omega)
      rw [h2] at hdr
      exact absurd hdr (by simp)

/-- Along any successful sequence of operations the remaining-count stays
set, never negative, and never increases. -/
theorem RecordStream.runOps_bte_mono (ops : List StreamOp) :
    ∀ (s s' : RecordStream) (r : Int), s.bytes_to_eor = some r → 0 ≤ r →
      s.runOps ops = .ok s' →
      ∃ r', s'.bytes_to_eor = some r' ∧ 0 ≤ r' ∧ r' ≤ r := by
  induction ops with
  | nil =>
    intro s s' r hbte hr h
    have hs : s = s' := by
      simpa [RecordStream.runOps] using h
    exact ⟨r, by rw [← hs]; exact hbte, hr, le_refl r⟩
  | cons op ops ih =>
    intro s s' r hbte hr h
    simp only [RecordStream.runOps] at h
    cases hop : s.runOp op with
    | ok s1 =>
      rw [hop] at h
      obtain ⟨r1, hb1, hr1, hle1⟩ := RecordStream.runOp_bte_mono s s1 op r hbte hr hop
      obtain ⟨r', hb', hr', hle'⟩ := ih s1 s' r1 hb1 hr1 h
      exact ⟨r', hb', hr', le_trans hle' hle1⟩
    | error e =>
      rw [hop] at h
      exact absurd h (by simp)

theorem toNat_max_zero (x : Int) : (max x 0).toNat = x.toNat := by
  rcases le_total x 0 with h | h
  · rw [max_eq_right h]; omega
  · rw [max_eq_left h]

/-- A sample stream with an active remaining-count of 7 over a 10-byte file. -/
def sampleBounded : RecordStream :=
  ⟨⟨[1, 2, 3, 4, 5, 6, 7, 8, 9, 10], 0, false⟩, some 7⟩

/-- A sample stream with no active remaining-count over a 10-byte file. -/
def sampleUnbounded : RecordStream :=
  ⟨⟨[1, 2, 3, 4, 5, 6, 7, 8, 9, 10], 0, false⟩, none⟩

/-- A sample stream whose remaining-count exceeds the bytes left in the
file (a truncated archive). -/
def sampleShort : RecordStream := ⟨⟨[1, 2, 3], 0, false⟩, some 5⟩

/-- C1: with an active positive remaining-count `r`, `read count` and
`readline maxlen` return at most `r - 4` bytes (as a byte count, that is
`max (r - 4) 0`) even when the caller requests more, and the remaining-count
is decremented by exactly the number of bytes returned; with no active
remaining-count the requested size is passed to the raw channel as-is. -/
theorem c1_read_readline_clamp (s t : RecordStream) (r : Int)
    (c m : Nat) (co mo : Option Nat)
    (hs : s.bytes_to_eor = some r) (hr : 0 < r)
    (ht : t.bytes_to_eor = none) :
    (((s.read (some c)).1).length ≤ (r - 4).toNat ∧
     ((s.readline (some m)).1).length ≤ (r - 4).toNat ∧
     ((s.read (some c)).2).bytes_to_eor =
       some (r - (((s.read (some c)).1).length : Int)) ∧
     ((s.readline (some m)).2).bytes_to_eor =
       some (r - (((s.readline (some m)).1).length : Int))) ∧
    (t.read co = t.rawRead co ∧
     (t.readline mo).1 = (t.fh.readlineAt mo).1) := by
  constructor
  · have h1 := RecordStream.read_spec_some s r (some c) hs
    have h2 := RecordStream.readline_spec_some s r (some m) hs
    refine ⟨?_, ?_, h1.2, h2.2⟩
    · have := h1.1; rw [toNat_max_zero] at this; exact this
    · have := h2.1; rw [toNat_max_zero] at this; exact this
  · constructor
    · cases co <;> simp [RecordStream.read, ht]
    · cases mo <;> simp [RecordStream.readline, ht]

/-- Witness for C1 at a concrete bounded stream (remaining-count 7, requests
of 5 bytes) and a concrete unbounded stream (requests of 6 bytes). -/
theorem c1_witness :
    ((((sampleBounded.read (some 5)).1).length ≤ ((7 : Int) - 4).toNat ∧
      ((sampleBounded.readline (some 5)).1).length ≤ ((7 : Int) - 4).toNat ∧
      ((sampleBounded.read (some 5)).2).bytes_to_eor =
        some (7 - (((sampleBounded.read (some 5)).1).length : Int)) ∧
      ((sampleBounded.readline (some 5)).2).bytes_to_eor =
        some (7 - (((sampleBounded.readline (some 5)).1).length : Int))) ∧
     (sampleUnbounded.read (some 6) = sampleUnbounded.rawRead (some 6) ∧
      (sampleUnbounded.readline (some 6)).1 =
        (sampleUnbounded.fh.readlineAt (some 6)).1)) :=
  c1_read_readline_clamp sampleBounded sampleUnbounded 7 5 5 (some 6) (some 6)
    rfl (by decide) rfl

/-- C2: along any successful sequence of public reads, readlines and
record-read drains, a remaining-count that starts set and non-negative stays
set, only decreases, and never becomes negative. -/
theorem c2_counter_monotone_nonneg (ops : List StreamOp) (s s' : RecordStream)
    (r : Int) (hbte : s.bytes_to_eor = some r) (hr : 0 ≤ r)
    (h : s.runOps ops = .ok s') :
    ∃ r', s'.bytes_to_eor = some r' ∧ 0 ≤ r' ∧ r' ≤ r :=
  RecordStream.runOps_bte_mono ops s s' r hbte hr h

/-- Witness for C2: a read, a drain and a readline on a concrete stream with
remaining-count 7 end with the counter at 0. -/
theorem c2_witness :
    ∃ r', ((⟨⟨[1, 2, 3, 4, 5, 6, 7, 8, 9, 10], 7, false⟩,
        some 0⟩ : RecordStream)).bytes_to_eor = some r' ∧ 0 ≤ r' ∧ r' ≤ 7 :=
  c2_counter_monotone_nonneg
    [StreamOp.readOp (some 2), StreamOp.drainOp, StreamOp.readlineOp (some 4)]
    sampleBounded ⟨⟨[1, 2, 3, 4, 5, 6, 7, 8, 9, 10], 7, false⟩, some 0⟩ 7
    rfl (by decide) rfl

/-- C6: draining the previous record's remainder with remaining-count `r`
succeeds exactly when the file still holds `r` bytes, consuming exactly `r`
bytes and ending with the remaining-count at exactly zero; when the file
holds fewer bytes the drain raises, and a single short chunk read raises
immediately, without any further read. -/
theorem c6_drain_truncation (s : RecordStream) (r : Int)
    (hbte : s.bytes_to_eor = some r) (hr : 0 ≤ r) :
    (r.toNat ≤ s.fh.data.length - s.fh.pos →
      s.skipToEor =
        .ok ⟨⟨s.fh.data, s.fh.pos + r.toNat, s.fh.closed⟩, some 0⟩) ∧
    (s.fh.data.length - s.fh.pos < r.toNat →
      s.skipToEor = .error "expected more bytes than were read") ∧
    (∀ fuel : Nat, 0 < r →
      ((s.rawRead (some (min CHUNK_SIZE r.toNat))).1).length <
          min CHUNK_SIZE r.toNat →
      RecordStream.skipToEorAux (fuel + 1) s =
        .error "expected more bytes than were read") := by
  have h := skipToEor_spec s r hbte hr
  refine ⟨h.1, h.2, ?_⟩
  intro fuel hpos hshort
  simp only [RecordStream.skipToEorAux, hbte]
  rw [if_pos hpos, if_pos hshort]

/-- Witness for C6 at a concrete truncated stream: remaining-count 5 over a
3-byte file. -/
theorem c6_witness :
    (((5 : Int).toNat ≤ sampleShort.fh.data.length - sampleShort.fh.pos →
      sampleShort.skipToEor =
        .ok ⟨⟨sampleShort.fh.data, sampleShort.fh.pos + (5 : Int).toNat,
          sampleShort.fh.closed⟩, some 0⟩) ∧
    (sampleShort.fh.data.length - sampleShort.fh.pos < (5 : Int).toNat →
      sampleShort.skipToEor = .error "expected more bytes than were read") ∧
    (∀ fuel : Nat, (0 : Int) < 5 →
      ((sampleShort.rawRead (some (min CHUNK_SIZE (5 : Int).toNat))).1).length <
          min CHUNK_SIZE (5 : Int).toNat →
      RecordStream.skipToEorAux (fuel + 1) sampleShort =
        .error "expected more bytes than were read")) :=
  c6_drain_truncation sampleShort 5 rfl (by decide)

/-- `RecordStream.__iter__` over the successive outcomes of the internal
record reads (the record if any, and the error list, as produced by the
external record parser): yield each record; on a record-less outcome raise
when the error list is non-empty, else end the iteration cleanly. -/
def iterRecords {α : Type} : List (Option α × List String) → Except String (List α)
  | [] => .ok []
  | (some r, _) :: rest => (iterRecords rest).map (fun rs => r :: rs)
  | (none, e :: es) :: _ =>
    .error ("Errors while decoding " ++ String.intercalate "," (e :: es))
  | (none, []) :: _ => .ok []

/-- C7: iteration yields each parsed record in order; a record-less outcome
with errors raises; a record-less outcome with no errors ends the iteration
cleanly without raising. -/
theorem c7_iteration {α : Type} (r : α) (errs : List String) (e : String)
    (es : List String) (rest : List (Option α × List String)) :
    (iterRecords ((some r, errs) :: rest) =
      (iterRecords rest).map (fun rs => r :: rs)) ∧
    (iterRecords ((none, e :: es) :: rest) =
      .error ("Errors while decoding " ++ String.intercalate "," (e :: es))) ∧
    (iterRecords ((none, ([] : List String)) :: rest) = .ok []) ∧
    (∀ recs : List α,
      iterRecords ((recs.map (fun x => (some x, ([] : List String)))) ++
          [(none, [])]) = .ok recs) := by
  refine ⟨rfl, rfl, rfl, ?_⟩
  intro recs
  induction recs with
  | nil => rfl
  | cons x xs ih =>
    simp only [List.map_cons, List.cons_append, iterRecords, List.append_eq]
    rw [ih]
    rfl

/-- Modelled from the documented contract of Python `gzip.GzipFile` built
over a `fileobj`: its `close` finalizes the wrapper without closing the
underlying file object. -/
structure GzipWrapper where
  raw : PyFile
  wrapperClosed : Bool
deriving DecidableEq

/-- `gzip.GzipFile.close` on a wrapper built with `fileobj=...`: the wrapper
is closed; the underlying raw channel is left as it is. -/
def GzipWrapper.close (g : GzipWrapper) : GzipWrapper :=
  { g with wrapperClosed := true }

/-- The part of a gzip-framed stream (`GzipRecordStream` or `GzipFileStream`)
that `close` touches: `self.fh` is the gzip wrapper built over the raw
channel handed to the constructor. -/
structure GzipStreamHandle where
  fh : GzipWrapper
deriving DecidableEq

/-- `RecordStream.close` for a plain stream: `self.fh` is the raw channel. -/
def RecordStream.close (s : RecordStream) : RecordStream :=
  { s with fh := s.fh.close }

/-- `RecordStream.close` as inherited by the gzip streams: `self.fh.close()`
closes the gzip wrapper. -/
def GzipStreamHandle.close (s : GzipStreamHandle) : GzipStreamHandle :=
  { s with fh := s.fh.close }

/-- A concrete gzip-framed stream over an open raw channel. -/
def sampleGzipStream : GzipStreamHandle := ⟨⟨⟨[31, 139, 8, 0], 0, false⟩, false⟩⟩

/-- Counterexample to C5: on a gzip-framed stream, `close()` does not release
the underlying raw channel — it closes only the gzip wrapper. -/
theorem c5_counterexample :
    ¬ ((sampleGzipStream.close).fh.raw.closed = true) := by decide

/-- C5 as amended: `close()` closes the stream's file handle exactly once per
lifetime — for a plain stream that releases the underlying raw channel, and
a second close changes nothing; for a gzip-framed stream it closes the gzip
wrapper exactly once, and the underlying raw channel is left untouched (in
particular it stays open). -/
theorem c5_close_amended (s : RecordStream) (g : GzipStreamHandle) :
    ((s.close).fh.closed = true ∧ (s.close).close = s.close) ∧
    ((g.close).fh.wrapperClosed = true ∧ (g.close).fh.raw = g.fh.raw ∧
      (g.close).close = g.close) := by
  refine ⟨⟨rfl, rfl⟩, ⟨rfl, rfl, rfl⟩⟩

/-- Modelled from the spec: the external record parser contract — given the
stream and an optional known offset, it returns the record (or none), an
error list, the offset actually used, and the stream it acted on (on
success it sets `bytes_to_eor` from the declared content length). -/
structure RecordParser where
  parse : RecordStream → Option Nat →
    Option (List Byte) × List String × Option Nat × RecordStream

/-- Whether an `Except` result is a success. -/
def exceptIsOk {ε α : Type} : Except ε α → Bool
  | .ok _ => true
  | .error _ => false

/-- `GzipFileStream._read_record`: drains any previous record's remainder,
clears the remaining-count, parses one record from the decompressed stream
(for a whole-file-gzip stream `fh` yields decompressed bytes), and then
returns the tuple `offset, record, errors` — but the name `offset` is bound
nowhere in the function or its module (only `_offset` is), so evaluating the
return expression raises `NameError`. -/
def GzipFileStream.readRecordFile (p : RecordParser) (s : RecordStream) :
    Except String (Option Nat × Option (List Byte) × List String) :=
  match (match s.bytes_to_eor with
         | some _ => s.skipToEor
         | none => .ok s) with
  | .error e => .error e
  | .ok s1 =>
    let s2 : RecordStream := { s1 with bytes_to_eor := none }
    let _parsed := p.parse s2 none
    .error "NameError: name offset is not defined"

/-- C4 (refuted by the code): reading one record from a whole-file-gzip
stream never returns the `(offset, record, errors)` triple — the return
statement evaluates the unbound name `offset` and raises `NameError` (when
the drain has not already raised). -/
theorem c4_gzipfilestream_read_record_raises (p : RecordParser)
    (s : RecordStream) :
    exceptIsOk (GzipFileStream.readRecordFile p s) = false := by
  unfold GzipFileStream.readRecordFile
  split
  · rfl
  · rfl

/-- Python `str.startswith`: prefix test on the character sequence. -/
def pyStartsWith (s pre : String) : Bool := pre.data.isPrefixOf s.data

/-- A WARC record as the payload extractor sees it: the type tag and the
`(content-type, raw content bytes)` pair. -/
structure WRecord where
  type : String
  content : String × List Byte
deriving DecidableEq

/-- Modelled from the spec: `WarcRecord.RESPONSE`, the type tag of response
records (the class constant lives in repo code outside src). -/
def WarcRecord.RESPONSE : String := "response"

/-- Modelled from the spec: the outcome of the external HTTP response
decoder after one `feed` of the record's content bytes and a `close` — the
unconsumed leftover bytes, the completeness flag, and the decoded body. -/
structure DecodeResult where
  remainder : List Byte
  complete : Bool
  body : List Byte
deriving DecidableEq

/-- `parse_http_response`: feed the record's raw content bytes to the HTTP
response decoder; after closing, a non-empty remainder or an incomplete
message yields non-fatal diagnostics (printed to stderr in the source,
collected in a list here); the decoded body is returned either way. -/
def parse_http_response (decode : List Byte → DecodeResult) (r : WRecord) :
    List Byte × List String :=
  let message := decode r.content.2
  let diags : List String :=
    if message.remainder ≠ [] ∨ message.complete = false then
      (if message.remainder ≠ [] then
        ["warning: trailing data in http response"] else []) ++
      (if message.complete = false then
        ["warning: truncated http response"] else [])
    else []
  (message.body, diags)

/-- Core of `extract_payload` for the single `(record, errors)` pair read
from the archive at the requested offset: with a record present, unpack
`(content_type, content)` and re-assign `content` to the decoded HTTP body
exactly when the record type is `RESPONSE` and the content type starts with
the prefix `application/http`; with no record but errors, the error report
evaluates the unbound name `name` and raises `NameError`; with neither, the
initial empty content is returned. -/
def extract_payload_step (decode : List Byte → DecodeResult)
    (record : Option WRecord) (errors : List String) :
    Except String (List Byte × List String) :=
  match record with
  | some r =>
    let content_type := r.content.1
    let content := r.content.2
    if r.type = WarcRecord.RESPONSE ∧ pyStartsWith content_type "application/http" then
      .ok (parse_http_response decode r)
    else
      .ok (content, [])
  | none =>
    if errors ≠ [] then
      .error "NameError: name name is not defined"
    else
      .ok ([], [])

/-- C8: a response record whose content type starts with `application/http`
is fed to the HTTP decoder and the decoded body is returned; every other
record is returned as its raw content bytes unchanged, and the decoder is
never invoked (the result does not depend on it). -/
theorem c8_dispatch (decode decode2 : List Byte → DecodeResult)
    (r1 r2 : WRecord) (errs1 errs2 : List String)
    (h1 : r1.type = WarcRecord.RESPONSE ∧
      pyStartsWith r1.content.1 "application/http")
    (h2 : ¬ (r2.type = WarcRecord.RESPONSE ∧
      pyStartsWith r2.content.1 "application/http")) :
    (extract_payload_step decode (some r1) errs1 =
      .ok (parse_http_response decode r1) ∧
     (parse_http_response decode r1).1 = (decode r1.content.2).body) ∧
    (extract_payload_step decode (some r2) errs2 = .ok (r2.content.2, []) ∧
     extract_payload_step decode (some r2) errs2 =
       extract_payload_step decode2 (some r2) errs2) := by
  refine ⟨⟨?_, rfl⟩, ?_, ?_⟩
  · simp only [extract_payload_step, if_pos h1]
  · simp only [extract_payload_step, if_neg h2]
  · simp only [extract_payload_step, if_neg h2]

/-- A sample decoder that consumes everything, completes, and reports the
fed bytes as the body. -/
def sampleDecode : List Byte → DecodeResult := fun bs => ⟨[], true, bs⟩

/-- A sample response record carrying an HTTP payload. -/
def sampleResponseRecord : WRecord :=
  ⟨"response", ("application/http;msgtype=response", [72, 84, 84, 80])⟩

/-- A sample metadata record. -/
def sampleMetadataRecord : WRecord :=
  ⟨"metadata", ("text/plain", [104, 105])⟩

/-- Witness for C8 at a concrete response record and a concrete metadata
record. -/
theorem c8_witness :
    ((extract_payload_step sampleDecode (some sampleResponseRecord) [] =
        .ok (parse_http_response sampleDecode sampleResponseRecord) ∧
      (parse_http_response sampleDecode sampleResponseRecord).1 =
        (sampleDecode sampleResponseRecord.content.2).body) ∧
     (extract_payload_step sampleDecode (some sampleMetadataRecord) [] =
        .ok (sampleMetadataRecord.content.2, []) ∧
      extract_payload_step sampleDecode (some sampleMetadataRecord) [] =
        extract_payload_step (fun bs => ⟨bs, false, []⟩)
          (some sampleMetadataRecord) [])) :=
  c8_dispatch sampleDecode (fun bs => ⟨bs, false, []⟩)
    sampleResponseRecord sampleMetadataRecord [] []
    (by constructor <;> decide) (by decide)

/-- C9: when the decoder leaves a non-empty remainder or never completes,
the extractor still succeeds: it returns the body the decoder recovered,
together with a trailing-data diagnostic when a remainder is left and a
truncated-response diagnostic when the message is incomplete. -/
theorem c9_decoder_anomaly (decode : List Byte → DecodeResult) (r : WRecord)
    (hty : r.type = WarcRecord.RESPONSE ∧
      pyStartsWith r.content.1 "application/http")
    (hanom : (decode r.content.2).remainder ≠ [] ∨
      (decode r.content.2).complete = false) :
    extract_payload_step decode (some r) [] =
      .ok (parse_http_response decode r) ∧
    (parse_http_response decode r).1 = (decode r.content.2).body ∧
    ((decode r.content.2).remainder ≠ [] →
      "warning: trailing data in http response" ∈
        (parse_http_response decode r).2) ∧
    ((decode r.content.2).complete = false →
      "warning: truncated http response" ∈
        (parse_http_response decode r).2) ∧
    (parse_http_response decode r).2 ≠ [] := by
  refine ⟨?_, rfl, ?_, ?_, ?_⟩
  · simp only [extract_payload_step, if_pos hty]
  · intro hrem
    simp only [parse_http_response, if_pos hanom, if_pos hrem]
    simp
  · intro hcom
    simp only [parse_http_response, if_pos hanom, if_pos hcom]
    simp
  · simp only [parse_http_response, if_pos hanom]
    rcases hanom with hrem | hcom
    · rw [if_pos hrem]; simp
    · rw [if_pos hcom]; simp

/-- A sample decoder reporting leftover bytes and an incomplete message. -/
def sampleTruncDecode : List Byte → DecodeResult :=
  fun bs => ⟨[7], false, bs.take 1⟩

/-- Witness for C9 at a concrete response record with a decoder that leaves
a remainder and never completes. -/
theorem c9_witness :
    extract_payload_step sampleTruncDecode (some sampleResponseRecord) [] =
      .ok (parse_http_response sampleTruncDecode sampleResponseRecord) ∧
    (parse_http_response sampleTruncDecode sampleResponseRecord).1 =
      (sampleTruncDecode sampleResponseRecord.content.2).body ∧
    ((sampleTruncDecode sampleResponseRecord.content.2).remainder ≠ [] →
      "warning: trailing data in http response" ∈
        (parse_http_response sampleTruncDecode sampleResponseRecord).2) ∧
    ((sampleTruncDecode sampleResponseRecord.content.2).complete = false →
      "warning: truncated http response" ∈
        (parse_http_response sampleTruncDecode sampleResponseRecord).2) ∧
    (parse_http_response sampleTruncDecode sampleResponseRecord).2 ≠ [] :=
  c9_decoder_anomaly sampleTruncDecode sampleResponseRecord
    (by constructor <;> decide) (by left; decide)

/-- A gzip member of a per-record archive, as the decompression layer sees
it: its compressed length in the raw file and its decompressed payload. -/
structure GzipMember where
  clen : Nat
  payload : List Byte
deriving DecidableEq

/-- State of the offset-tracking decompression channel (`GeeZipFile`) at a
record boundary: the members not yet decompressed, the raw channel position
(`fileobj.tell()`), and the start offset captured for the member most
recently begun (`member_offset`). Between records the previous record has
been fully drained, so the decompressed buffer is empty and omitted. -/
structure GeeZipFile where
  pending : List GzipMember
  rawPos : Nat
  member_offset : Option Nat
deriving DecidableEq

/-- `GzipRecordStream._read_record` at member-per-record granularity: the
drain of the previous record has already consumed exactly its member, so
the parse begins a new gzip member — the `GeeZipFile._read` hook captures
`member_offset := fileobj.tell()` before any of the member's bytes are
consumed — and consumes exactly its decompressed payload; the offset
reported is `self.fh.member_offset` read after the parse, whatever the
value of the `offsets` flag. The record-grammar side is modelled from the
spec (the record parser is repo code outside src): under per-record
framing a parse consumes exactly one member's payload and returns it as
the record. -/
def GzipRecordStream.readRecordG (g : GeeZipFile) (offsets : Bool) :
    Option Nat × Option (List Byte) × GeeZipFile :=
  match g.pending with
  | [] => (g.member_offset, none, g)
  | m :: rest =>
    let g' : GeeZipFile :=
      { pending := rest, rawPos := g.rawPos + m.clen,
        member_offset := some g.rawPos }
    (g'.member_offset, some m.payload, g')

/-- The raw byte offset at which member `n` of the archive starts. -/
def memberStart (ms : List GzipMember) (n : Nat) : Nat :=
  ((ms.take n).map GzipMember.clen).sum

/-- A fresh per-record-gzip stream over a whole archive: raw position 0,
no member begun yet. -/
def freshGzipStream (ms : List GzipMember) : GeeZipFile := ⟨ms, 0, none⟩

/-- Opening a fresh per-record-gzip stream on the raw file positioned at
byte offset `o` (`fh.seek(o)` on the raw channel before wrapping): the gzip
layer can decompress exactly when `o` is the start of a member, and then
sees the members from that point on, none of the earlier bytes. -/
def openAtOffset : List GzipMember → Nat → Nat → Option GeeZipFile
  | [], pos, o => if pos = o then some ⟨[], pos, none⟩ else none
  | m :: rest, pos, o =>
    if pos = o then some ⟨m :: rest, pos, none⟩
    else openAtOffset rest (pos + m.clen) o

/-- Read and discard the first `n` records of a per-record-gzip stream. -/
def skipRecordsG (g : GeeZipFile) : Nat → GeeZipFile
  | 0 => g
  | n + 1 => skipRecordsG (GzipRecordStream.readRecordG g true).2.2 n

theorem memberStart_zero (ms : List GzipMember) : memberStart ms 0 = 0 := by
  simp [memberStart]

theorem memberStart_cons_succ (m : GzipMember) (rest : List GzipMember)
    (n : Nat) :
    memberStart (m :: rest) (n + 1) = m.clen + memberStart rest n := by
  simp [memberStart]

/-- After `n` reads from a stream positioned at raw offset `p`, the members
read are exactly the first `n` and the raw position has advanced by their
compressed lengths. -/
theorem skipRecordsG_state :
    ∀ (n : Nat) (ms : List GzipMember) (p : Nat) (mo : Option Nat),
      n ≤ ms.length →
      (skipRecordsG ⟨ms, p, mo⟩ n).pending = ms.drop n ∧
      (skipRecordsG ⟨ms, p, mo⟩ n).rawPos = p + memberStart ms n := by
  intro n
  induction n with
  | zero => intro ms p mo _; simp [skipRecordsG, memberStart]
  | succ n ih =>
    intro ms p mo h
    cases ms with
    | nil => simp at h
    | cons m rest =>
      have hstep : (GzipRecordStream.readRecordG ⟨m :: rest, p, mo⟩ true).2.2 =
          (⟨rest, p + m.clen, some p⟩ : GeeZipFile) := rfl
      have := ih rest (p + m.clen) (some p) (by simpa using h)
      constructor
      · show (skipRecordsG
            (GzipRecordStream.readRecordG ⟨m :: rest, p, mo⟩ true).2.2 n).pending =
          (m :: rest).drop (n + 1)
        rw [hstep]
        exact this.1
      · show (skipRecordsG
            (GzipRecordStream.readRecordG ⟨m :: rest, p, mo⟩ true).2.2 n).rawPos =
          p + memberStart (m :: rest) (n + 1)
        rw [hstep, memberStart_cons_succ]
        rw [this.2]
        omega

/-- Seeking to the start offset of member `n` finds exactly member `n`'s
boundary when every member has positive compressed length. -/
theorem openAtOffset_memberStart :
    ∀ (ms : List GzipMember) (p n : Nat), (∀ m ∈ ms, 0 < m.clen) →
      n ≤ ms.length →
      openAtOffset ms p (p + memberStart ms n) =
        some ⟨ms.drop n, p + memberStart ms n, none⟩ := by
  intro ms
  induction ms with
  | nil =>
    intro p n _ h
    have hn : n = 0 := by simpa using h
    subst hn
    simp [openAtOffset, memberStart]
  | cons m rest ih =>
    intro p n hclen h
    cases n with
    | zero =>
      simp [openAtOffset, memberStart]
    | succ n =>
      rw [memberStart_cons_succ]
      have hm : 0 < m.clen := hclen m (List.mem_cons_self m rest)
      have hne : p ≠ p + (m.clen + memberStart rest n) := by omega
      simp only [openAtOffset, if_neg hne]
      have := ih (p + m.clen) n
        (fun x hx => hclen x (List.mem_cons_of_mem m hx)) (by simpa using h)
      rw [show p + (m.clen + memberStart rest n) =
            p + m.clen + memberStart rest n from by omega]
      rw [this]
      rfl

/-- C3: under per-record-gzip framing, the `n`-th sequential read reports
the raw start offset of member `n` and yields member `n`'s record; opening
a fresh stream at exactly that offset positions the gzip layer on member
`n` with no earlier member visible, and reading one record yields exactly
member `n`'s record, decoding only that member. -/
theorem c3_offset_round_trip (ms : List GzipMember) (n : Nat)
    (hclen : ∀ m ∈ ms, 0 < m.clen) (hn : n < ms.length) :
    ((GzipRecordStream.readRecordG (skipRecordsG (freshGzipStream ms) n)
        true).1 = some (memberStart ms n) ∧
     (GzipRecordStream.readRecordG (skipRecordsG (freshGzipStream ms) n)
        true).2.1 = some (ms.get ⟨n, hn⟩).payload) ∧
    (openAtOffset ms 0 (memberStart ms n) =
        some ⟨ms.drop n, memberStart ms n, none⟩ ∧
     (GzipRecordStream.readRecordG ⟨ms.drop n, memberStart ms n, none⟩
        true).1 = some (memberStart ms n) ∧
     (GzipRecordStream.readRecordG ⟨ms.drop n, memberStart ms n, none⟩
        true).2.1 = some (ms.get ⟨n, hn⟩).payload ∧
     (GzipRecordStream.readRecordG ⟨ms.drop n, memberStart ms n, none⟩
        true).2.2.pending = ms.drop (n + 1)) := by
  have hdrop : ms.drop n = ms.get ⟨n, hn⟩ :: ms.drop (n + 1) := by
    rw [List.get_eq_getElem]
    exact List.drop_eq_getElem_cons hn
  have hstate := skipRecordsG_state n ms 0 none (le_of_lt hn)
  obtain ⟨hpend, hpos⟩ := hstate
  rcases hg : skipRecordsG (freshGzipStream ms) n with ⟨pend, rp, mo⟩
  have hg' : skipRecordsG (⟨ms, 0, none⟩ : GeeZipFile) n = ⟨pend, rp, mo⟩ := hg
  rw [hg'] at hpend hpos
  simp only at hpend hpos
  have hpend' : pend = ms.get ⟨n, hn⟩ :: ms.drop (n + 1) := by
    rw [hpend, hdrop]
  constructor
  · constructor
    · rw [hpend']
      simp only [GzipRecordStream.readRecordG, Option.some.injEq]
      omega
    · rw [hpend']
      rfl
  · refine ⟨?_, ?_, ?_, ?_⟩
    · have h := openAtOffset_memberStart ms 0 n hclen (le_of_lt hn)
      rw [zero_add] at h
      exact h
    · rw [hdrop]
      rfl
    · rw [hdrop]
      rfl
    · rw [hdrop]
      rfl

/-- A concrete per-record archive: three members with positive compressed
lengths. -/
def sampleMembers : List GzipMember :=
  [⟨20, [1, 2]⟩, ⟨25, [3, 4]⟩, ⟨18, [5]⟩]

/-- Witness for C3 at the concrete archive `sampleMembers`, record 1. -/
theorem c3_witness :
    ((GzipRecordStream.readRecordG
        (skipRecordsG (freshGzipStream sampleMembers) 1) true).1 =
          some (memberStart sampleMembers 1) ∧
     (GzipRecordStream.readRecordG
        (skipRecordsG (freshGzipStream sampleMembers) 1) true).2.1 =
          some ((sampleMembers.get ⟨1, by decide⟩).payload)) ∧
    (openAtOffset sampleMembers 0 (memberStart sampleMembers 1) =
        some ⟨sampleMembers.drop 1, memberStart sampleMembers 1, none⟩ ∧
     (GzipRecordStream.readRecordG
        ⟨sampleMembers.drop 1, memberStart sampleMembers 1, none⟩ true).1 =
          some (memberStart sampleMembers 1) ∧
     (GzipRecordStream.readRecordG
        ⟨sampleMembers.drop 1, memberStart sampleMembers 1, none⟩ true).2.1 =
          some ((sampleMembers.get ⟨1, by decide⟩).payload) ∧
     (GzipRecordStream.readRecordG
        ⟨sampleMembers.drop 1, memberStart sampleMembers 1, none⟩
        true).2.2.pending = sampleMembers.drop 2) :=
  c3_offset_round_trip sampleMembers 1 (by decide) (by decide)

/-- `RecordStream._read_record` (plain stream): drain the previous record's
remainder if a remaining-count is set, clear the remaining-count, compute
`offset` as the raw position when `offsets` is true and `None` otherwise,
invoke the parser with it, and return the offset the parser reports with
the record and errors. -/
def RecordStream.readRecordPlain (p : RecordParser) (s : RecordStream)
    (offsets : Bool) :
    Except String (Option Nat × Option (List Byte) × List String × RecordStream) :=
  match (match s.bytes_to_eor with
         | some _ => s.skipToEor
         | none => .ok s) with
  | .error e => .error e
  | .ok s1 =>
    let s2 : RecordStream := { s1 with bytes_to_eor := none }
    let offset : Option Nat := if offsets then some s2.fh.pos else none
    let parsed := p.parse s2 offset
    .ok (parsed.2.2.1, parsed.1, parsed.2.1, parsed.2.2.2)

/-- C10: a per-record-gzip record read reports the member start offset
captured by the decompression wrapper whatever the `offsets` flag — the
flag changes nothing — while the plain stream's record read with
`offsets = false` reports no offset (given a parser that reports back the
offset it receives, per the parser contract). -/
theorem c10_offsets_flag (g : GeeZipFile) (b : Bool) (p : RecordParser)
    (t : RecordStream) (ht : t.bytes_to_eor = none)
    (hp : (p.parse { t with bytes_to_eor := none } none).2.2.1 = none) :
    (GzipRecordStream.readRecordG g b = GzipRecordStream.readRecordG g true) ∧
    ((GzipRecordStream.readRecordG g b).1 =
      ((GzipRecordStream.readRecordG g b).2.2).member_offset) ∧
    (RecordStream.readRecordPlain p t false =
      .ok (none, (p.parse { t with bytes_to_eor := none } none).1,
        (p.parse { t with bytes_to_eor := none } none).2.1,
        (p.parse { t with bytes_to_eor := none } none).2.2.2)) := by
  refine ⟨rfl, ?_, ?_⟩
  · rcases g with ⟨pending, rp, mo⟩
    cases pending <;> rfl
  · simp only [RecordStream.readRecordPlain, ht, Bool.false_eq_true, if_false]
    rw [hp]

/-- A parser that reports back the offset it was given (and no record). -/
def echoParser : RecordParser := ⟨fun s o => (none, [], o, s)⟩

/-- Witness for C10 at a concrete gzip channel state, `offsets := false`,
and the echo parser on a concrete plain stream. -/
theorem c10_witness :
    (GzipRecordStream.readRecordG ⟨sampleMembers, 5, some 99⟩ false =
      GzipRecordStream.readRecordG ⟨sampleMembers, 5, some 99⟩ true) ∧
    ((GzipRecordStream.readRecordG ⟨sampleMembers, 5, some 99⟩ false).1 =
      ((GzipRecordStream.readRecordG ⟨sampleMembers, 5, some 99⟩
        false).2.2).member_offset) ∧
    (RecordStream.readRecordPlain echoParser sampleUnbounded false =
      .ok (none,
        (echoParser.parse { sampleUnbounded with bytes_to_eor := none }
          none).1,
        (echoParser.parse { sampleUnbounded with bytes_to_eor := none }
          none).2.1,
        (echoParser.parse { sampleUnbounded with bytes_to_eor := none }
          none).2.2.2)) :=
  c10_offsets_flag ⟨sampleMembers, 5, some 99⟩ false echoParser
    sampleUnbounded rfl rfl

end Warctools
